import Mathlib

/-!
Verification development for `main.go` of whisper-cpp-server.

Shallow embedding of the audio decoder (`convertWAVToFloat32`), the segment
aggregation of `WhisperService.ProcessAudio`, the upload validation of
`Server.handleTranscribe` and the stop-hook sequence built by `main`.

Modelling conventions.

* A Go `[]byte` is a `ByteSlice`: the `len` visible elements plus the spare
  elements of the backing array between `len` and `cap`.  A slice expression
  `a[lo:hi]` on a slice is in range iff `lo ≤ hi ≤ cap(a)`; an index
  expression `a[i]` is in range iff `i < len(a)`.  Out-of-range accesses are
  a run-time panic, modelled by `Outcome.panic`.
* Go `int` is taken to be 64 bits wide, so the four-byte size field is a
  natural number below `2^32` and no `int` operation of the decoder wraps.
* `int16` arithmetic is done on 16-bit patterns (`% 2^16`) and read back as
  a two's-complement value.
* A `float32` sample is `float32(int16)/32768.0`.  Every 16-bit integer and
  its quotient by `2^15` is exactly representable in binary32, so samples
  are given as exact rationals.
* `time.Duration` is an `Int` number of nanoseconds; `Seconds()` is given as
  the exact rational number of seconds (only order and equality are used).
* Go strings are lists of runes (`List Char`).
-/

namespace WhisperServer

/-! ## Outcomes of a Go call -/

/-- Result of a Go function returning `(value, error)`: a value with a nil
error, a non-nil error, or a run-time panic. -/
inductive Outcome (ε α : Type) where
  | ok (v : α)
  | err (e : ε)
  | panic
  deriving DecidableEq, Repr

/-! ## Byte slices -/

abbrev Byte := Fin 256

/-- Go byte slice: `elems` are the `len` addressable elements, `spare` the
elements of the backing array between `len` and `cap`. -/
structure ByteSlice where
  elems : List Byte
  spare : List Byte
  deriving DecidableEq, Repr

namespace ByteSlice

/-- Go `len(s)`. -/
def len (s : ByteSlice) : Nat := s.elems.length

/-- Go `cap(s)`. -/
def cap (s : ByteSlice) : Nat := s.elems.length + s.spare.length

/-- Backing array from the slice's first element up to its capacity. -/
def backing (s : ByteSlice) : List Byte := s.elems ++ s.spare

/-- Byte slice whose capacity equals its length. -/
def ofList (l : List Byte) : ByteSlice := ⟨l, []⟩

end ByteSlice

/-! ## `convertWAVToFloat32` -/

/-- Errors returned by `convertWAVToFloat32`:
`tooShort` is "invalid WAV file: too short",
`notWave` is "invalid WAV file: not a valid WAVE file",
`noDataChunk` is "invalid WAV file: no data chunk found". -/
inductive WavError where
  | tooShort
  | notWave
  | noDataChunk
  deriving DecidableEq, Repr

/-- ASCII bytes of "RIFF". -/
def tagRIFF : List Byte := [82, 73, 70, 70]

/-- ASCII bytes of "WAVE". -/
def tagWAVE : List Byte := [87, 65, 86, 69]

/-- ASCII bytes of "data". -/
def tagData : List Byte := [100, 97, 116, 97]

/-- The test `string(data[i:i+4]) == "data"`. -/
def hasDataTagAt (data : List Byte) (i : Nat) : Bool :=
  (data.drop i).take 4 == tagData

/-- The loop `for i := 12; i < len(data)-8; i++` with its `break` at the
first `i` where `string(data[i:i+4]) == "data"`; `none` is
`dataChunkPos == -1`. -/
def findDataChunk (data : List Byte) : Option Nat :=
  (List.range' 12 (data.length - 8 - 12)).find? (fun i => hasDataTagAt data i)

/-- Two's-complement reading of a 16-bit pattern (Go `int16`). -/
def toInt16 (bits : Nat) : Int :=
  if bits % 65536 < 32768 then (bits % 65536 : Nat) else ((bits % 65536 : Nat) : Int) - 65536

/-- The expression `int16(lo) | int16(hi)<<8`. -/
def sampleInt16 (lo hi : Byte) : Int :=
  toInt16 (lo.val ||| ((hi.val <<< 8) % 65536))

/-- The expression `float32(sample) / 32768.0` (exact in binary32). -/
def toFloat32Sample (sample : Int) : ℚ := (sample : ℚ) / 32768

/-- One iteration of the conversion loop: reads `audioData[i*2]` and
`audioData[i*2+1]`; `none` is an index out of range. -/
def pcmSample (audioData : List Byte) (i : Nat) : Option ℚ :=
  match audioData[i * 2]?, audioData[i * 2 + 1]? with
  | some lo, some hi => some (toFloat32Sample (sampleInt16 lo hi))
  | _, _ => none

/-- The conversion loop over the given indices, filling `samples[i]` in
order; `none` is an index out of range. -/
def pcmLoop (audioData : List Byte) : List Nat → Option (List ℚ)
  | [] => some []
  | i :: rest =>
    match pcmSample audioData i, pcmLoop audioData rest with
    | some s, some ss => some (s :: ss)
    | _, _ => none

/-- The expression `int(b4) | int(b5)<<8 | int(b6)<<16 | int(b7)<<24`. -/
def dataSizeOf (b4 b5 b6 b7 : Byte) : Nat :=
  b4.val ||| (b5.val <<< 8) ||| (b6.val <<< 16) ||| (b7.val <<< 24)

/-- Embedding of `convertWAVToFloat32`. -/
def convertWAVToFloat32 (data : ByteSlice) : Outcome WavError (List ℚ) :=
  if data.len < 44 then .err .tooShort
  else if data.elems.take 4 ≠ tagRIFF ∨ (data.elems.drop 8).take 4 ≠ tagWAVE then
    .err .notWave
  else
    match findDataChunk data.elems with
    | none => .err .noDataChunk
    | some p =>
      match data.elems[p + 4]?, data.elems[p + 5]?, data.elems[p + 6]?, data.elems[p + 7]? with
      | some b4, some b5, some b6, some b7 =>
        let dataSize := dataSizeOf b4 b5 b6 b7
        -- audioData := data[dataChunkPos+8 : dataChunkPos+8+dataSize]
        if p + 8 + dataSize ≤ data.cap then
          let audioData := (data.backing.drop (p + 8)).take dataSize
          match pcmLoop audioData (List.range (audioData.length / 2)) with
          | some samples => .ok samples
          | none => .panic
        else .panic
      | _, _, _, _ => .panic

/-! ### Specification-side descriptions of the decoder -/

/-- Signed 16-bit integer whose low byte is `lo` and high byte is `hi`
(two's complement), as the specification words it. -/
def int16OfBytes (lo hi : Byte) : Int :=
  if lo.val + 256 * hi.val < 32768 then (lo.val + 256 * hi.val : Nat)
  else ((lo.val + 256 * hi.val : Nat) : Int) - 65536

/-- Little-endian 32-bit value of the four bytes at `off .. off+3`. -/
def le32At (data : List Byte) (off : Nat) : Nat :=
  (data.getD off 0).val + 256 * (data.getD (off + 1) 0).val
    + 65536 * (data.getD (off + 2) 0).val + 16777216 * (data.getD (off + 3) 0).val

/-- Payload of `n` bytes decoded as consecutive little-endian 16-bit pairs,
each divided by 32768; a trailing odd byte is dropped. -/
def decodePcm16 (payload : List Byte) : List ℚ :=
  (List.range (payload.length / 2)).map
    (fun i => (int16OfBytes (payload.getD (2 * i) 0) (payload.getD (2 * i + 1) 0) : ℚ) / 32768)

/-- Chunk walk of the specification: starting at `off`, read a chunk tag and
its declared size; stop at the "data" chunk when its payload fits in the
buffer, otherwise advance by the chunk header and the declared size.  The
result is the offset of the "data" tag and the declared payload size. -/
def walkChunks (data : List Byte) : Nat → Nat → Option (Nat × Nat)
  | 0, _ => none
  | fuel + 1, off =>
    if off + 8 ≤ data.length then
      if hasDataTagAt data off then
        if off + 8 + le32At data (off + 4) ≤ data.length then some (off, le32At data (off + 4))
        else none
      else walkChunks data fuel (off + 8 + le32At data (off + 4))
    else none

/-- The "data" chunk reached by walking the chunk sequence from offset 12.
Every step advances by at least eight bytes, so `data.length` steps are
enough to reach the end of the buffer. -/
def specDataChunk (data : List Byte) : Option (Nat × Nat) :=
  walkChunks data data.length 12

/-- Bits-per-sample field of a canonical header (bytes 34 and 35). -/
def bitsPerSample (data : List Byte) : Nat :=
  (data.getD 34 0).val + 256 * (data.getD 35 0).val

/-- Header fields of a 16-bit mono PCM container: "fmt " chunk of 16 bytes at
offset 12, format tag 1, one channel, sixteen bits per sample. -/
def isPcm16MonoHeader (data : List Byte) : Bool :=
  (data.drop 12).take 4 == [102, 109, 116, 32] && le32At data 16 == 16 &&
  (data.getD 20 0).val + 256 * (data.getD 21 0).val == 1 &&
  (data.getD 22 0).val + 256 * (data.getD 23 0).val == 1 &&
  bitsPerSample data == 16

/-! ### Test buffers -/

/-- Canonical 44-byte PCM header: "RIFF" with the size `36 + declared`,
"WAVE", a 16-byte "fmt " chunk (format 1, the given channel count, sample
rate 16000, the given bits per sample) and the "data" tag with the given
declared size (small enough for one byte). -/
def pcmHeader (channels bits declared : Byte) : List Byte :=
  [82, 73, 70, 70, 36 + declared, 0, 0, 0, 87, 65, 86, 69,
   102, 109, 116, 32, 16, 0, 0, 0,
   1, 0, channels, 0, 128, 62, 0, 0, 0, 125, 0, 0, 2, 0, bits, 0,
   100, 97, 116, 97, declared, 0, 0, 0]

/-- A 16-bit mono container with a "LIST"/"INFO" chunk holding the comment
"metadata" between the "fmt " chunk and the "data" chunk, whose payload is
two samples (76 bytes). -/
def wavWithComment : List Byte :=
  [82, 73, 70, 70, 68, 0, 0, 0, 87, 65, 86, 69,
   102, 109, 116, 32, 16, 0, 0, 0,
   1, 0, 1, 0, 128, 62, 0, 0, 0, 125, 0, 0, 2, 0, 16, 0,
   76, 73, 83, 84, 20, 0, 0, 0, 73, 78, 70, 79,
   73, 67, 77, 84, 8, 0, 0, 0, 109, 101, 116, 97, 100, 97, 116, 97,
   100, 97, 116, 97, 4, 0, 0, 0, 1, 0, 2, 0]

/-- A container whose 30-byte "fmt " chunk body carries a 12-byte extension
made of the bytes "data", the size field 2 and the bytes `34 12 00 00`; the
real "data" chunk, with payload `ff 7f`, follows at offset 50 (60 bytes). -/
def wavWithTagInFmt : List Byte :=
  [82, 73, 70, 70, 52, 0, 0, 0, 87, 65, 86, 69,
   102, 109, 116, 32, 30, 0, 0, 0,
   1, 0, 1, 0, 128, 62, 0, 0, 0, 125, 0, 0, 2, 0, 16, 0, 12, 0,
   100, 97, 116, 97, 2, 0, 0, 0, 52, 18, 0, 0,
   100, 97, 116, 97, 2, 0, 0, 0, 255, 127]

/-! ## Strings -/

/-- Go string, as its sequence of runes. -/
abbrev GoString := List Char

/-- Go `unicode.IsSpace`, the runes with the Unicode White_Space property:
U+0009..U+000D, U+0020, U+0085, U+00A0, U+1680, U+2000..U+200A, U+2028,
U+2029, U+202F, U+205F, U+3000. -/
def isSpace (c : Char) : Bool :=
  let n := c.toNat
  (9 ≤ n && n ≤ 13) || n == 32 || n == 133 || n == 160 || n == 5760 ||
  (8192 ≤ n && n ≤ 8202) || n == 8232 || n == 8233 || n == 8239 || n == 8287 || n == 12288

/-- Go `strings.TrimSpace`: the string without its leading and trailing
white space. -/
def TrimSpace (s : GoString) : GoString :=
  ((s.dropWhile isSpace).reverse.dropWhile isSpace).reverse

/-- Go `strings.ToLower`, restricted to its action on ASCII letters.  No rune
outside ASCII has the lower case `w`, `a`, `v` or the dot, so the comparison
with ".wav" made by `isValidAudioFile` is the same under both. -/
def ToLower (s : GoString) : GoString := s.map Char.toLower

/-- The reversed-scan of Go `filepath.Ext` on the reversed path: `acc` holds
the runes already passed, in path order. -/
def extScan : List Char → List Char → GoString
  | [], _ => []
  | c :: rest, acc =>
    if c = '/' then []
    else if c = '.' then c :: acc
    else extScan rest (c :: acc)

/-- Go `filepath.Ext` (Unix separator): the suffix beginning at the final
dot in the final element of the path, empty if there is no dot. -/
def Ext (path : GoString) : GoString := extScan path.reverse []

/-- Texts joined with a single space between consecutive entries. -/
def joinSpace : List GoString → GoString
  | [] => []
  | [t] => t
  | t :: rest => t ++ ' ' :: joinSpace rest

/-! ## `WhisperService.ProcessAudio` -/

/-- Error value of the recognition engine, with the text of its `Error()`. -/
structure EngineError where
  Error : String
  deriving DecidableEq, Repr

/-- Engine segment (`whisper.Segment`): `Start` and `End` are
`time.Duration` values in nanoseconds, the offsets of the segment into the
audio. -/
structure Segment where
  Start : Int
  End : Int
  Text : GoString
  deriving DecidableEq, Repr

/-- Go `Duration.Seconds`. -/
def Seconds (d : Int) : ℚ := (d : ℚ) / 1000000000

structure SegmentResponse where
  Start : ℚ
  End : ℚ
  Text : GoString
  deriving DecidableEq, Repr

structure TranscriptionResponse where
  Success : Bool
  Transcription : GoString
  Segments : List SegmentResponse
  Language : GoString
  Model : GoString
  Duration : ℚ
  Error : String
  deriving DecidableEq, Repr

/-- Engine state after a successful `ctx.Process`: `results` are the values
returned by the successive `ctx.NextSegment()` calls before it reports
`io.EOF` (which it does once they are exhausted), `DetectedLanguage` the
value of `ctx.DetectedLanguage()`. -/
structure Decoding where
  results : List (Except EngineError Segment)
  DetectedLanguage : GoString

/-- Inference context (`whisper.Context`): `Process` receives the language
set by `SetLanguage` and the samples; the other settings are the constants
`SetTranslate(false)`, `SetTokenTimestamps(true)`, `SetMaxSegmentLength(0)`,
`SetThreads(4)`. -/
structure Context where
  Process : GoString → List ℚ → Except EngineError Decoding

/-- Model handle (`whisper.Model`) with the result of `NewContext()`. -/
structure Model where
  NewContext : Except EngineError Context

structure WhisperService where
  model : Model
  modelName : GoString

/-- Errors returned by `ProcessAudio`, by the message that wraps the cause:
"failed to convert audio", "failed to create context", "failed to process
audio", "failed to get segment". -/
inductive ProcessError where
  | convertAudio (e : WavError)
  | createContext (e : EngineError)
  | processAudio (e : EngineError)
  | getSegment (e : EngineError)
  deriving DecidableEq, Repr

/-- Loop variables of the segment collection. -/
structure Collected where
  segments : List SegmentResponse
  fullText : GoString
  duration : ℚ
  deriving DecidableEq, Repr

/-- The `for` loop of `ProcessAudio` over the results of the successive
`NextSegment` calls: leaves at `io.EOF` (results exhausted), returns at the
first other error. -/
def collectSegments : List (Except EngineError Segment) → Collected → Except EngineError Collected
  | [], acc => .ok acc
  | .error e :: _, _ => .error e
  | .ok segment :: rest, acc =>
    let segmentResp : SegmentResponse :=
      { Start := Seconds segment.Start, End := Seconds segment.End, Text := TrimSpace segment.Text }
    collectSegments rest
      { segments := acc.segments ++ [segmentResp]
        fullText := acc.fullText ++ (segmentResp.Text ++ [' '])
        duration := if Seconds segment.End > acc.duration then Seconds segment.End else acc.duration }

/-- Embedding of `WhisperService.ProcessAudio`. -/
def ProcessAudio (ws : WhisperService) (audioData : ByteSlice) (language : GoString) :
    Outcome ProcessError TranscriptionResponse :=
  match convertWAVToFloat32 audioData with
  | .panic => .panic
  | .err e => .err (.convertAudio e)
  | .ok audioFloat32 =>
    match ws.model.NewContext with
    | .error e => .err (.createContext e)
    | .ok ctx =>
      match ctx.Process language audioFloat32 with
      | .error e => .err (.processAudio e)
      | .ok run =>
        match collectSegments run.results { segments := [], fullText := [], duration := 0 } with
        | .error e => .err (.getSegment e)
        | .ok acc =>
          .ok { Success := true
                Transcription := TrimSpace acc.fullText
                Segments := acc.segments
                Language := run.DetectedLanguage
                Model := ws.modelName
                Duration := acc.duration
                Error := "" }

/-! ## `Server.handleTranscribe` -/

structure Config where
  ModelName : GoString
  Port : GoString
  MaxFileSize : Int
  ModelPath : GoString

/-- Multipart file header (`multipart.FileHeader`). -/
structure FileHeader where
  Filename : GoString
  Size : Int

/-- Uploaded file: its header and the result of `io.ReadAll(file)`
(`none` is a read error). -/
structure FormFile where
  header : FileHeader
  readAll : Option ByteSlice

/-- The parts of an `http.Request` read by `handleTranscribe`:
`parseOk` is `r.ParseMultipartForm(...) == nil`, `file` the result of
`r.FormFile("file")` (`none` is an error), `language` the value of
`r.FormValue("language")`. -/
structure Request where
  parseOk : Bool
  file : Option FormFile
  language : GoString

/-- What the handler wrote: `sendError` with its message and status code,
`sendJSON` of a result (status 200), or nothing because the call panicked. -/
inductive Reply where
  | sendError (message : String) (statusCode : Nat)
  | sendJSON (result : TranscriptionResponse)
  | panicked

/-- Reply of the handler together with the arguments of every
`ProcessAudio` call it made. -/
structure Handled where
  reply : Reply
  processAudioCalls : List (ByteSlice × GoString)

/-- HTTP status code of a reply (`none` when nothing was written). -/
def Reply.status : Reply → Option Nat
  | .sendError _ statusCode => some statusCode
  | .sendJSON _ => some 200
  | .panicked => none

/-- The message of an error returned by `ProcessAudio` (`err.Error()`): the
text given to `fmt.Errorf`, with the message of the wrapped cause in the
place of `%w`. -/
def ProcessError.message : ProcessError → String
  | .convertAudio .tooShort => "failed to convert audio: invalid WAV file: too short"
  | .convertAudio .notWave => "failed to convert audio: invalid WAV file: not a valid WAVE file"
  | .convertAudio .noDataChunk => "failed to convert audio: invalid WAV file: no data chunk found"
  | .createContext e => "failed to create context: " ++ e.Error
  | .processAudio e => "failed to process audio: " ++ e.Error
  | .getSegment e => "failed to get segment: " ++ e.Error

/-- Embedding of `Server.isValidAudioFile`. -/
def isValidAudioFile (filename : GoString) : Bool :=
  let ext := ToLower (Ext filename)
  ext == ['.', 'w', 'a', 'v']

/-- Embedding of `Server.handleTranscribe`. -/
def handleTranscribe (config : Config) (whisperService : WhisperService) (r : Request) : Handled :=
  if !r.parseOk then ⟨.sendError "Failed to parse form" 400, []⟩
  else
    match r.file with
    | none => ⟨.sendError "No file provided" 400, []⟩
    | some file =>
      if file.header.Size > config.MaxFileSize then ⟨.sendError "File too large" 413, []⟩
      else if !isValidAudioFile file.header.Filename then
        ⟨.sendError "Invalid file type. Only WAV files are supported" 400, []⟩
      else
        match file.readAll with
        | none => ⟨.sendError "Failed to read file" 500, []⟩
        | some fileContent =>
          let language := if r.language = [] then ['a', 'u', 't', 'o'] else r.language
          match ProcessAudio whisperService fileContent language with
          | .ok result => ⟨.sendJSON result, [(fileContent, language)]⟩
          | .err err => ⟨.sendError err.message 500, [(fileContent, language)]⟩
          | .panic => ⟨.panicked, [(fileContent, language)]⟩

/-! ## Stop hooks registered by `main` -/

/-- Calls made by the lifecycle hooks. -/
inductive HookCall where
  | httpListenAndServe
  | httpShutdown
  | modelClose
  deriving DecidableEq, Repr

/-- An `fx.Hook`: a nil callback is `none`, otherwise the calls it makes. -/
structure Hook where
  OnStart : Option (List HookCall)
  OnStop : Option (List HookCall)
  deriving DecidableEq, Repr

/-- An `fx.Lifecycle`: the hooks in the order they were appended. -/
abbrev Lifecycle := List Hook

/-- Go `lc.Append(hook)`. -/
def Lifecycle.Append (lc : Lifecycle) (hook : Hook) : Lifecycle := lc ++ [hook]

/-- Embedding of `NewHTTPServer`: appends the hook whose `OnStart` launches
`httpServer.ListenAndServe()` and whose `OnStop` returns
`httpServer.Shutdown(ctx)`. -/
def NewHTTPServer (lc : Lifecycle) : Lifecycle :=
  lc.Append { OnStart := some [.httpListenAndServe], OnStop := some [.httpShutdown] }

/-- Embedding of `WhisperService.Close` for a loaded model. -/
def WhisperServiceClose : List HookCall := [.modelClose]

/-- Embedding of `RegisterWhisperCleanup`: appends a hook with only an
`OnStop`, which calls `ws.Close()`. -/
def RegisterWhisperCleanup (lc : Lifecycle) : Lifecycle :=
  lc.Append { OnStart := none, OnStop := some WhisperServiceClose }

/-- The lifecycle built by `main`: `fx.Invoke` runs `NewHTTPServer`, then
`RegisterWhisperCleanup`. -/
def mainLifecycle : Lifecycle := RegisterWhisperCleanup (NewHTTPServer [])

/-- Modelled from the documentation of the library go.uber.org/fx (a
dependency, not part of the repository): on start the `OnStart` callbacks
run in the order the hooks were appended. -/
def fxStart (lc : Lifecycle) : List HookCall :=
  (lc.filterMap (fun h => h.OnStart)).flatten

/-- Modelled from the documentation of the library go.uber.org/fx (a
dependency, not part of the repository): `App.Stop` "executes any
registered OnStop hooks in reverse order", each running to completion
before the next one starts. -/
def fxStop (lc : Lifecycle) : List HookCall :=
  (lc.reverse.filterMap (fun h => h.OnStop)).flatten

/-! ## Specification-side descriptions of the aggregation -/

/-- The response entry of an engine segment: its times in seconds and its
trimmed text. -/
def toSegmentResponse (segment : Segment) : SegmentResponse :=
  { Start := Seconds segment.Start, End := Seconds segment.End, Text := TrimSpace segment.Text }

/-- Largest of the given end times and 0. -/
def maxEndOrZero (ends : List ℚ) : ℚ := ends.foldr max 0

/-- The value returned with a nil error, if any. -/
def Outcome.value? {ε α : Type} : Outcome ε α → Option α
  | .ok v => some v
  | .err _ => none
  | .panic => none

/-- Engine state holding the given `NextSegment` results, with detected
language "en". -/
def stubDecoding (results : List (Except EngineError Segment)) : Decoding :=
  { results := results, DetectedLanguage := ['e', 'n'] }

/-- A context whose `Process` accepts any audio and then yields the given
`NextSegment` results. -/
def stubContext (results : List (Except EngineError Segment)) : Context :=
  { Process := fun _ _ => .ok (stubDecoding results) }

/-- A service whose model hands out `stubContext results`. -/
def stubService (results : List (Except EngineError Segment)) : WhisperService :=
  { model := { NewContext := .ok (stubContext results) }
    modelName := ['b', 'a', 's', 'e'] }

/-- Two segments with white space around their texts. -/
def paddedSegments : List Segment :=
  [⟨0, 1000000000, [' ', 'a']⟩, ⟨1000000000, 2000000000, ['b', ' ']⟩]

/-- The results of three `NextSegment` calls: the two segments of
`paddedSegments`, then an engine error (after which a further segment would
have been available). -/
def failingResults : List (Except EngineError Segment) :=
  paddedSegments.map .ok ++ .error ⟨"decode failed"⟩ :: [.ok ⟨0, 5, ['z']⟩]

/-- A canonical 16-bit mono container with two samples of silence. -/
def silence : ByteSlice := .ofList (pcmHeader 1 16 4 ++ [0, 0, 0, 0])

/-- A request with the given file name and size, whose content is two
samples of silence. -/
def uploadOf (filename : GoString) (size : Int) : Request :=
  { parseOk := true
    file := some { header := { Filename := filename, Size := size }, readAll := some silence }
    language := [] }

/-- Configuration with the given upload limit. -/
def configWithLimit (limit : Int) : Config :=
  { ModelName := ['b', 'a', 's', 'e'], Port := ['8', '0', '8', '0'], MaxFileSize := limit,
    ModelPath := [] }

/-! ## Lemmas about the decoder -/

theorem findDataChunk_eq_some_iff (data : List Byte) (p : Nat) :
    findDataChunk data = some p ↔
      hasDataTagAt data p = true ∧ 12 ≤ p ∧ p + 8 < data.length ∧
        ∀ j, 12 ≤ j → j < p → hasDataTagAt data j = false := by
  unfold findDataChunk
  rw [List.find?_range'_eq_some]
  simp only [List.mem_range'_1, Bool.not_eq_eq_eq_not, Bool.not_true]
  constructor
  · rintro ⟨h1, ⟨h2, h3⟩, h4⟩
    exact ⟨h1, h2, by omega, h4⟩
  · rintro ⟨h1, h2, h3, h4⟩
    exact ⟨h1, ⟨h2, by omega⟩, h4⟩

theorem lor_shift8 (lo hi : Nat) (hlo : lo < 256) : lo ||| (hi <<< 8) = lo + 256 * hi := by
  rw [Nat.shiftLeft_eq, Nat.lor_comm, Nat.mul_comm hi]
  have h := Nat.mul_add_lt_is_or (show lo < 2 ^ 8 by simpa using hlo) hi
  rw [← h]; norm_num; omega

theorem sampleInt16_eq (lo hi : Byte) : sampleInt16 lo hi = int16OfBytes lo hi := by
  have hlo := lo.isLt
  have hhi := hi.isLt
  have hsh : (hi.val <<< 8) % 65536 = hi.val <<< 8 := by
    apply Nat.mod_eq_of_lt
    rw [Nat.shiftLeft_eq]; omega
  have hor : lo.val ||| (hi.val <<< 8) = lo.val + 256 * hi.val := lor_shift8 _ _ hlo
  unfold sampleInt16 toInt16 int16OfBytes
  rw [hsh, hor, Nat.mod_eq_of_lt (by omega)]

theorem int16OfBytes_bounds (lo hi : Byte) :
    -32768 ≤ int16OfBytes lo hi ∧ int16OfBytes lo hi ≤ 32767 := by
  have hlo := lo.isLt
  have hhi := hi.isLt
  unfold int16OfBytes
  split <;> constructor <;> omega

theorem dataSizeOf_eq (b4 b5 b6 b7 : Byte) :
    dataSizeOf b4 b5 b6 b7 = b4.val + 256 * b5.val + 65536 * b6.val + 16777216 * b7.val := by
  have h4 := b4.isLt
  have h5 := b5.isLt
  have h6 := b6.isLt
  unfold dataSizeOf
  rw [lor_shift8 _ _ h4]
  have e1 : (b4.val + 256 * b5.val) ||| (b6.val <<< 16) = (b4.val + 256 * b5.val) + 65536 * b6.val := by
    rw [Nat.shiftLeft_eq, Nat.lor_comm, Nat.mul_comm b6.val]
    have h := Nat.mul_add_lt_is_or (show b4.val + 256 * b5.val < 2 ^ 16 by norm_num; omega) b6.val
    rw [← h]; norm_num; omega
  rw [e1]
  rw [Nat.shiftLeft_eq, Nat.lor_comm, Nat.mul_comm b7.val]
  have h := Nat.mul_add_lt_is_or
    (show b4.val + 256 * b5.val + 65536 * b6.val < 2 ^ 24 by norm_num; omega) b7.val
  rw [← h]; norm_num; omega

theorem pcmLoop_eq_map (audioData : List Byte) (idx : List Nat)
    (h : ∀ i ∈ idx, 2 * i + 1 < audioData.length) :
    pcmLoop audioData idx = some (idx.map (fun i =>
      (int16OfBytes (audioData.getD (2 * i) 0) (audioData.getD (2 * i + 1) 0) : ℚ) / 32768)) := by
  induction idx with
  | nil => rfl
  | cons i rest ih =>
    have hi : 2 * i + 1 < audioData.length := h i (List.mem_cons_self _ _)
    have hrest := ih (fun j hj => h j (List.mem_cons_of_mem _ hj))
    have h0 : audioData[i * 2]? = some (audioData.getD (2 * i) 0) := by
      rw [Nat.mul_comm i 2, List.getD_eq_getElem?_getD, List.getElem?_eq_getElem (by omega)]
      rfl
    have h1 : audioData[i * 2 + 1]? = some (audioData.getD (2 * i + 1) 0) := by
      rw [Nat.mul_comm i 2, List.getD_eq_getElem?_getD, List.getElem?_eq_getElem (by omega)]
      rfl
    simp only [pcmLoop, pcmSample, h0, h1, hrest, List.map_cons, toFloat32Sample, sampleInt16_eq]

theorem pcmLoop_range (audioData : List Byte) :
    pcmLoop audioData (List.range (audioData.length / 2)) = some (decodePcm16 audioData) := by
  unfold decodePcm16
  apply pcmLoop_eq_map
  intro i hi
  have := List.mem_range.mp hi
  omega

theorem getElem?_eq_some_getD (data : List Byte) (i : Nat) (h : i < data.length) :
    data[i]? = some (data.getD i 0) := by
  rw [List.getD_eq_getElem?_getD, List.getElem?_eq_getElem h]
  rfl

/-- What `convertWAVToFloat32` does once its scan has stopped at offset `p`:
it panics when the declared size reaches past the capacity, and otherwise
decodes the declared number of bytes of the backing array after `p + 8`. -/
theorem convert_of_findDataChunk (data : ByteSlice) (p : Nat)
    (hlen : 44 ≤ data.len)
    (hriff : data.elems.take 4 = tagRIFF) (hwave : (data.elems.drop 8).take 4 = tagWAVE)
    (hfind : findDataChunk data.elems = some p) :
    convertWAVToFloat32 data =
      if p + 8 + le32At data.elems (p + 4) ≤ data.cap then
        .ok (decodePcm16 ((data.backing.drop (p + 8)).take (le32At data.elems (p + 4))))
      else .panic := by
  obtain ⟨_, _, hp, _⟩ := (findDataChunk_eq_some_iff _ _).mp hfind
  have e4 := getElem?_eq_some_getD data.elems (p + 4) (by omega)
  have e5 := getElem?_eq_some_getD data.elems (p + 5) (by omega)
  have e6 := getElem?_eq_some_getD data.elems (p + 6) (by omega)
  have e7 := getElem?_eq_some_getD data.elems (p + 7) (by omega)
  have hsize : dataSizeOf (data.elems.getD (p + 4) 0) (data.elems.getD (p + 5) 0)
      (data.elems.getD (p + 6) 0) (data.elems.getD (p + 7) 0) = le32At data.elems (p + 4) := by
    rw [dataSizeOf_eq]; rfl
  unfold convertWAVToFloat32
  rw [if_neg (by omega), if_neg (by simp [hriff, hwave])]
  simp only [hfind, e4, e5, e6, e7, hsize, pcmLoop_range]

theorem decodePcm16_length (payload : List Byte) :
    (decodePcm16 payload).length = payload.length / 2 := by
  simp [decodePcm16]

theorem decodePcm16_getElem? (payload : List Byte) (i : Nat) (h : i < payload.length / 2) :
    (decodePcm16 payload)[i]? =
      some ((int16OfBytes (payload.getD (2 * i) 0) (payload.getD (2 * i + 1) 0) : ℚ) / 32768) := by
  simp [decodePcm16, List.getElem?_range h]

theorem sample_in_unit_interval (v : Int) (hlo : -32768 ≤ v) (hhi : v ≤ 32767) :
    (-1 : ℚ) ≤ (v : ℚ) / 32768 ∧ (v : ℚ) / 32768 < 1 := by
  have h1 : ((-32768 : Int) : ℚ) ≤ (v : ℚ) := by exact_mod_cast hlo
  have h2 : (v : ℚ) ≤ ((32767 : Int) : ℚ) := by exact_mod_cast hhi
  constructor
  · rw [le_div_iff₀ (by norm_num)]; push_cast at h1; linarith
  · rw [div_lt_iff₀ (by norm_num)]; push_cast at h2; linarith

theorem decodePcm16_bounds (payload : List Byte) :
    ∀ s ∈ decodePcm16 payload, (-1 : ℚ) ≤ s ∧ s < 1 := by
  intro s hs
  simp only [decodePcm16, List.mem_map] at hs
  obtain ⟨i, _, rfl⟩ := hs
  obtain ⟨h1, h2⟩ := int16OfBytes_bounds (payload.getD (2 * i) 0) (payload.getD (2 * i + 1) 0)
  exact sample_in_unit_interval _ h1 h2

theorem payload_in_elems (data : ByteSlice) (k n : Nat) (h : k + n ≤ data.len) :
    (data.backing.drop k).take n = (data.elems.drop k).take n := by
  unfold ByteSlice.backing
  unfold ByteSlice.len at h
  rw [List.drop_append_of_le_length (by omega), List.take_append_of_le_length]
  simp; omega

theorem payload_length (l : List Byte) (k n : Nat) (h : k + n ≤ l.length) :
    ((l.drop k).take n).length = n := by
  simp; omega

theorem payload_getD (l : List Byte) (k n j : Nat) (hj : j < n) :
    ((l.drop k).take n).getD j 0 = l.getD (k + j) 0 := by
  simp only [List.getD_eq_getElem?_getD, List.getElem?_take_of_lt hj, List.getElem?_drop]

/-- Decoder result when the first "data" tag of the scan is at `p` and the
declared size fits in the visible part of the buffer. -/
theorem convert_of_first_tag (data : ByteSlice) (p : Nat)
    (hlen : 44 ≤ data.len)
    (hriff : data.elems.take 4 = tagRIFF) (hwave : (data.elems.drop 8).take 4 = tagWAVE)
    (htag : hasDataTagAt data.elems p = true) (h12 : 12 ≤ p) (hend : p + 8 < data.len)
    (hfirst : ∀ j, 12 ≤ j → j < p → hasDataTagAt data.elems j = false)
    (hfit : p + 8 + le32At data.elems (p + 4) ≤ data.len) :
    convertWAVToFloat32 data =
      .ok (decodePcm16 ((data.elems.drop (p + 8)).take (le32At data.elems (p + 4)))) := by
  have hfind : findDataChunk data.elems = some p :=
    (findDataChunk_eq_some_iff _ _).mpr ⟨htag, h12, hend, hfirst⟩
  rw [convert_of_findDataChunk data p hlen hriff hwave hfind, payload_in_elems data _ _ hfit]
  rw [if_pos]
  unfold ByteSlice.cap
  unfold ByteSlice.len at hfit
  omega

theorem walkChunks_some (data : List Byte) (fuel off p n : Nat)
    (h : walkChunks data fuel off = some (p, n)) :
    off ≤ p ∧ hasDataTagAt data p = true ∧ n = le32At data (p + 4) ∧ p + 8 + n ≤ data.length := by
  induction fuel generalizing off with
  | zero => simp [walkChunks] at h
  | succ fuel ih =>
    unfold walkChunks at h
    split at h
    · split at h
      · rename_i htag
        split at h
        · rename_i hfit
          simp only [Option.some.injEq, Prod.mk.injEq] at h
          obtain ⟨rfl, rfl⟩ := h
          exact ⟨le_refl _, htag, rfl, hfit⟩
        · cases h
      · obtain ⟨h1, h2⟩ := ih _ h
        exact ⟨by omega, h2⟩
    · cases h

/-! ## The decoder: claims C1 to C5 -/

/-- Once the scan has stopped at a tag, the decoder returns no error,
whatever size the tag declares: it panics when the declared size reaches
past the capacity, and otherwise returns samples, read from the spare
capacity where the declared size reaches past the length. -/
theorem convert_no_error_after_scan (data : ByteSlice) (p : Nat)
    (hlen : 44 ≤ data.len)
    (hriff : data.elems.take 4 = tagRIFF) (hwave : (data.elems.drop 8).take 4 = tagWAVE)
    (hfind : findDataChunk data.elems = some p) (e : WavError) :
    convertWAVToFloat32 data ≠ .err e := by
  rw [convert_of_findDataChunk data p hlen hriff hwave hfind]
  split <;> simp

/-- C1, evaluated on the code: a 46-byte buffer (capacity 46) with valid
"RIFF"/"WAVE" tags whose "data" tag at offset 36 declares 100 payload bytes
while 2 remain.  The slice expression `data[44:144]` is out of range and
the call panics; no error is returned. -/
theorem convert_declared_size_past_end_panics :
    44 ≤ (pcmHeader 1 16 100 ++ [1, 2]).length ∧
    hasDataTagAt (pcmHeader 1 16 100 ++ [1, 2]) 36 = true ∧
    le32At (pcmHeader 1 16 100 ++ [1, 2]) 40 = 100 ∧
    convertWAVToFloat32 (.ofList (pcmHeader 1 16 100 ++ [1, 2])) = .panic := by
  decide

/-- The same buffer shape with spare capacity behind it: the declared size 4
exceeds the 2 remaining bytes, the slice expression is within the capacity,
and the call returns two samples, the second read past the buffer. -/
theorem convert_declared_size_past_end_reads_spare :
    convertWAVToFloat32 ⟨pcmHeader 1 16 4 ++ [1, 2], [3, 4, 0, 0]⟩ =
      .ok [(513 : ℚ) / 32768, (1027 : ℚ) / 32768] := by
  decide!

/-- C2, counterexample: a valid 16-bit mono container of 76 bytes whose
chunk sequence is "fmt ", "LIST" (an INFO comment "metadata"), "data" with 4
payload bytes.  The chunk walk finds the "data" chunk at offset 64; the
decoder stops at the bytes "data" of the comment and panics. -/
theorem convert_valid_container_with_comment_panics :
    44 ≤ wavWithComment.length ∧
    wavWithComment.take 4 = tagRIFF ∧ (wavWithComment.drop 8).take 4 = tagWAVE ∧
    isPcm16MonoHeader wavWithComment = true ∧
    specDataChunk wavWithComment = some (64, 4) ∧
    convertWAVToFloat32 (.ofList wavWithComment) = .panic := by
  decide

/-- A second valid container on which C2 fails: the canonical 44-byte file
with an empty payload.  The scan ends before offset `len - 8 = 36`, where
the "data" tag is, and the decoder reports that no data chunk was found. -/
theorem convert_empty_payload_not_found :
    isPcm16MonoHeader (pcmHeader 1 16 0) = true ∧
    specDataChunk (pcmHeader 1 16 0) = some (36, 0) ∧
    convertWAVToFloat32 (.ofList (pcmHeader 1 16 0)) = .err .noDataChunk := by
  decide

/-- C2, amended: for a buffer of length at least 44 with the "RIFF" and
"WAVE" tags whose chunk walk from offset 12 reaches a "data" chunk at offset
`p` with a declared size `n` that fits in the buffer, if the bytes "data" do
not occur at any offset from 12 up to `p` and `p < len - 8`, the decoder
succeeds with exactly `n / 2` samples, each in `[-1, 1)`. -/
theorem convert_valid_container_count_and_range (data : ByteSlice) (p n : Nat)
    (hlen : 44 ≤ data.len)
    (hriff : data.elems.take 4 = tagRIFF) (hwave : (data.elems.drop 8).take 4 = tagWAVE)
    (hwalk : specDataChunk data.elems = some (p, n))
    (hfirst : ∀ j, 12 ≤ j → j < p → hasDataTagAt data.elems j = false)
    (hend : p + 8 < data.len) :
    ∃ samples, convertWAVToFloat32 data = .ok samples ∧ samples.length = n / 2 ∧
      ∀ s ∈ samples, (-1 : ℚ) ≤ s ∧ s < 1 := by
  obtain ⟨h12, htag, hn, hfit⟩ := walkChunks_some _ _ _ _ _ hwalk
  subst hn
  refine ⟨_, convert_of_first_tag data p hlen hriff hwave htag h12 hend hfirst hfit, ?_, ?_⟩
  · rw [decodePcm16_length, payload_length _ _ _ hfit]
  · exact decodePcm16_bounds _

/-- The amended C2 at the canonical container with the payload `00 80 ff 7f`. -/
theorem convert_valid_container_count_and_range_witness :
    ∃ samples, convertWAVToFloat32 (.ofList (pcmHeader 1 16 4 ++ [0, 128, 255, 127])) = .ok samples ∧
      samples.length = 4 / 2 ∧ ∀ s ∈ samples, (-1 : ℚ) ≤ s ∧ s < 1 :=
  convert_valid_container_count_and_range
    (.ofList (pcmHeader 1 16 4 ++ [0, 128, 255, 127])) 36 4
    (by decide) (by decide) (by decide) (by decide) (by decide) (by decide)

/-- C3, counterexample: in `wavWithTagInFmt` the bytes "data" occur inside
the "fmt " chunk body at offset 38 and the real "data" chunk, found by the
chunk walk at offset 50, has the payload `ff 7f`.  The decoder returns the
sample `0x1234 / 32768` read after the false match, not the sample
`32767 / 32768` of the real chunk. -/
theorem convert_takes_tag_inside_fmt :
    hasDataTagAt wavWithTagInFmt 38 = true ∧
    specDataChunk wavWithTagInFmt = some (50, 2) ∧
    decodePcm16 ((wavWithTagInFmt.drop 58).take 2) = [(32767 : ℚ) / 32768] ∧
    convertWAVToFloat32 (.ofList wavWithTagInFmt) = .ok [(4660 : ℚ) / 32768] ∧
    convertWAVToFloat32 (.ofList wavWithTagInFmt) ≠
      .ok (decodePcm16 ((wavWithTagInFmt.drop 58).take 2)) := by
  decide!

/-- C3, amended: the decoder locates the payload by scanning byte by byte
from offset 12: it stops at the first offset `p` with `12 ≤ p < len - 8` at
which the bytes "data" occur, chunk boundary or not, and the samples it
returns are decoded from the bytes that follow `p + 8`, as many as the size
field at `p + 4` declares.  (They are the samples of the real "data" chunk
when no such bytes occur before it.) -/
theorem convert_reads_at_first_occurrence (data : ByteSlice) (p : Nat)
    (hlen : 44 ≤ data.len)
    (hriff : data.elems.take 4 = tagRIFF) (hwave : (data.elems.drop 8).take 4 = tagWAVE)
    (htag : hasDataTagAt data.elems p = true) (h12 : 12 ≤ p) (hend : p + 8 < data.len)
    (hfirst : ∀ j, 12 ≤ j → j < p → hasDataTagAt data.elems j = false)
    (hfit : p + 8 + le32At data.elems (p + 4) ≤ data.len) :
    findDataChunk data.elems = some p ∧
    convertWAVToFloat32 data =
      .ok (decodePcm16 ((data.elems.drop (p + 8)).take (le32At data.elems (p + 4)))) :=
  ⟨(findDataChunk_eq_some_iff _ _).mpr ⟨htag, h12, hend, hfirst⟩,
   convert_of_first_tag data p hlen hriff hwave htag h12 hend hfirst hfit⟩

/-- The amended C3 at `wavWithTagInFmt`, whose first occurrence of "data" is at offset 38. -/
theorem convert_reads_at_first_occurrence_witness :
    findDataChunk (ByteSlice.ofList wavWithTagInFmt).elems = some 38 ∧
    convertWAVToFloat32 (.ofList wavWithTagInFmt) =
      .ok (decodePcm16 (((ByteSlice.ofList wavWithTagInFmt).elems.drop (38 + 8)).take
        (le32At (ByteSlice.ofList wavWithTagInFmt).elems (38 + 4)))) :=
  convert_reads_at_first_occurrence (.ofList wavWithTagInFmt) 38
    (by decide) (by decide) (by decide) (by decide) (by decide) (by decide) (by decide) (by decide)

/-- C4, counterexample: a canonical container whose header declares 8 bits
per sample, with 4 payload bytes.  The decoder returns no error: it returns
two samples, each built from a pair of the 8-bit samples. -/
theorem convert_eight_bit_header_decoded_as_pairs :
    bitsPerSample (pcmHeader 1 8 4 ++ [1, 2, 3, 4]) = 8 ∧
    convertWAVToFloat32 (.ofList (pcmHeader 1 8 4 ++ [1, 2, 3, 4])) =
      .ok [(513 : ℚ) / 32768, (1027 : ℚ) / 32768] := by
  decide!

/-- C4, amended: the decoder does not read the bits-per-sample field.  For a
buffer of length at least 44 with the "RIFF" and "WAVE" tags whose header
declares a bit depth other than 16, whose first "data" tag is at an offset
`p` with `36 ≤ p < len - 8` and whose declared size fits in the buffer, it
returns no error: it succeeds and returns the payload decoded as
little-endian 16-bit pairs, half as many samples as the declared size. -/
theorem convert_other_bit_depth_decoded_as_pairs (data : ByteSlice) (p : Nat)
    (hlen : 44 ≤ data.len)
    (hriff : data.elems.take 4 = tagRIFF) (hwave : (data.elems.drop 8).take 4 = tagWAVE)
    (_hbits : bitsPerSample data.elems ≠ 16)
    (htag : hasDataTagAt data.elems p = true) (h36 : 36 ≤ p) (hend : p + 8 < data.len)
    (hfirst : ∀ j, 12 ≤ j → j < p → hasDataTagAt data.elems j = false)
    (hfit : p + 8 + le32At data.elems (p + 4) ≤ data.len) :
    (∀ e, convertWAVToFloat32 data ≠ .err e) ∧
    ∃ samples, convertWAVToFloat32 data = .ok samples ∧
      samples = decodePcm16 ((data.elems.drop (p + 8)).take (le32At data.elems (p + 4))) ∧
      samples.length = le32At data.elems (p + 4) / 2 := by
  have h := convert_of_first_tag data p hlen hriff hwave htag (by omega) hend hfirst hfit
  refine ⟨fun e he => ?_, _, h, rfl, ?_⟩
  · rw [h] at he; cases he
  · rw [decodePcm16_length, payload_length _ _ _ hfit]

/-- The amended C4 at a canonical container declaring 24 bits per sample, with six payload bytes. -/
theorem convert_other_bit_depth_decoded_as_pairs_witness :
    bitsPerSample (ByteSlice.ofList (pcmHeader 1 24 6 ++ [1, 2, 3, 4, 5, 6])).elems ≠ 16 ∧
    ((∀ e, convertWAVToFloat32 (.ofList (pcmHeader 1 24 6 ++ [1, 2, 3, 4, 5, 6])) ≠ .err e) ∧
    ∃ samples, convertWAVToFloat32 (.ofList (pcmHeader 1 24 6 ++ [1, 2, 3, 4, 5, 6])) = .ok samples ∧
      samples = decodePcm16
        (((ByteSlice.ofList (pcmHeader 1 24 6 ++ [1, 2, 3, 4, 5, 6])).elems.drop (36 + 8)).take
          (le32At (ByteSlice.ofList (pcmHeader 1 24 6 ++ [1, 2, 3, 4, 5, 6])).elems (36 + 4))) ∧
      samples.length =
        le32At (ByteSlice.ofList (pcmHeader 1 24 6 ++ [1, 2, 3, 4, 5, 6])).elems (36 + 4) / 2) :=
  ⟨by decide,
   convert_other_bit_depth_decoded_as_pairs (.ofList (pcmHeader 1 24 6 ++ [1, 2, 3, 4, 5, 6])) 36
    (by decide) (by decide) (by decide) (by decide) (by decide) (by decide) (by decide)
    (by decide) (by decide)⟩

/-- C5: for a buffer of length at least 44 with the "RIFF" and "WAVE" tags
whose first "data" tag is at an offset `p` with `12 ≤ p < len - 8` and
declares a size `n ≤ len - p - 8`, the decoder succeeds (no out-of-range
index or slice, which would be a panic), returns `n / 2` samples, and for
every `i < n / 2` the `i`-th sample is `v / 32768` for the integer `v` in
`[-32768, 32767]` congruent modulo `2^16` to `lo + 256 * hi`, where `lo` and
`hi` are the payload bytes `2 i` and `2 i + 1`. -/
theorem convert_sample_values (data : ByteSlice) (p : Nat)
    (hlen : 44 ≤ data.len)
    (hriff : data.elems.take 4 = tagRIFF) (hwave : (data.elems.drop 8).take 4 = tagWAVE)
    (htag : hasDataTagAt data.elems p = true) (h12 : 12 ≤ p) (hend : p + 8 < data.len)
    (hfirst : ∀ j, 12 ≤ j → j < p → hasDataTagAt data.elems j = false)
    (hfit : le32At data.elems (p + 4) ≤ data.len - p - 8) :
    ∃ samples, convertWAVToFloat32 data = .ok samples ∧
      samples.length = le32At data.elems (p + 4) / 2 ∧
      ∀ i, i < le32At data.elems (p + 4) / 2 →
        ∃ v : Int, -32768 ≤ v ∧ v ≤ 32767 ∧
          (v - ((data.elems.getD (p + 8 + 2 * i) 0).val
                + 256 * (data.elems.getD (p + 8 + 2 * i + 1) 0).val : Nat)) % 65536 = 0 ∧
          samples[i]? = some ((v : ℚ) / 32768) := by
  have hfit' : p + 8 + le32At data.elems (p + 4) ≤ data.len := by omega
  have hfitl : p + 8 + le32At data.elems (p + 4) ≤ data.elems.length := hfit'
  refine ⟨_, convert_of_first_tag data p hlen hriff hwave htag h12 hend hfirst hfit', ?_, ?_⟩
  · rw [decodePcm16_length, payload_length _ _ _ hfitl]
  · intro i hi
    have hlenp := payload_length _ _ _ hfitl
    refine ⟨int16OfBytes (data.elems.getD (p + 8 + 2 * i) 0) (data.elems.getD (p + 8 + 2 * i + 1) 0),
      (int16OfBytes_bounds _ _).1, (int16OfBytes_bounds _ _).2, ?_, ?_⟩
    · unfold int16OfBytes
      split <;> omega
    · rw [decodePcm16_getElem? _ i (by rw [hlenp]; exact hi),
        payload_getD _ _ _ _ (by omega), payload_getD _ _ _ _ (by omega)]
      rfl

/-- C5 at a canonical container declaring five payload bytes `00 80 ff 7f 09`. -/
theorem convert_sample_values_witness :
    ∃ samples, convertWAVToFloat32 (.ofList (pcmHeader 2 16 5 ++ [0, 128, 255, 127, 9])) = .ok samples ∧
      samples.length =
        le32At (ByteSlice.ofList (pcmHeader 2 16 5 ++ [0, 128, 255, 127, 9])).elems (36 + 4) / 2 ∧
      ∀ i, i < le32At (ByteSlice.ofList (pcmHeader 2 16 5 ++ [0, 128, 255, 127, 9])).elems (36 + 4) / 2 →
        ∃ v : Int, -32768 ≤ v ∧ v ≤ 32767 ∧
          (v - (((ByteSlice.ofList (pcmHeader 2 16 5 ++ [0, 128, 255, 127, 9])).elems.getD
                  (36 + 8 + 2 * i) 0).val
                + 256 * ((ByteSlice.ofList (pcmHeader 2 16 5 ++ [0, 128, 255, 127, 9])).elems.getD
                  (36 + 8 + 2 * i + 1) 0).val : Nat)) % 65536 = 0 ∧
          samples[i]? = some ((v : ℚ) / 32768) :=
  convert_sample_values (.ofList (pcmHeader 2 16 5 ++ [0, 128, 255, 127, 9])) 36
    (by decide) (by decide) (by decide) (by decide) (by decide) (by decide) (by decide) (by decide)

/-! ## Lemmas about the aggregation -/

theorem collectSegments_ok (segs : List Segment) (acc : Collected) :
    collectSegments (segs.map .ok) acc =
      .ok { segments := acc.segments ++ segs.map toSegmentResponse
            fullText := acc.fullText ++ (segs.map (fun s => TrimSpace s.Text ++ [' '])).flatten
            duration := segs.foldl (fun d s => max d (Seconds s.End)) acc.duration } := by
  induction segs generalizing acc with
  | nil => simp [collectSegments]
  | cons s rest ih =>
    have hmax : (if Seconds s.End > acc.duration then Seconds s.End else acc.duration)
        = max acc.duration (Seconds s.End) := by
      rw [max_def]
      split <;> split <;> first | rfl | linarith
    simp only [List.map_cons, collectSegments, ih, hmax, List.foldl_cons, List.flatten_cons,
      toSegmentResponse, List.append_assoc, List.singleton_append]

theorem collectSegments_error (pre : List Segment) (e : EngineError)
    (rest : List (Except EngineError Segment)) (acc : Collected) :
    collectSegments (pre.map .ok ++ .error e :: rest) acc = .error e := by
  induction pre generalizing acc with
  | nil => simp [collectSegments]
  | cons s pre ih =>
    simp only [List.map_cons, List.cons_append, collectSegments]
    exact ih _

theorem collectSegments_ok_all (results : List (Except EngineError Segment)) (acc out : Collected)
    (h : collectSegments results acc = .ok out) :
    ∃ segs : List Segment, results = segs.map .ok := by
  induction results generalizing acc with
  | nil => exact ⟨[], rfl⟩
  | cons r rest ih =>
    cases r with
    | error e => simp [collectSegments] at h
    | ok s =>
      simp only [collectSegments] at h
      obtain ⟨segs, hsegs⟩ := ih _ h
      exact ⟨s :: segs, by simp [hsegs]⟩

theorem foldl_max_eq (xs : List ℚ) (a b : ℚ) (hb : b ≤ a) :
    xs.foldl max a = max a (xs.foldr max b) := by
  induction xs generalizing a with
  | nil => simp [hb]
  | cons x xs ih =>
    simp only [List.foldl_cons, List.foldr_cons]
    rw [ih (max a x) (le_trans hb (le_max_left _ _)), max_assoc]

theorem maxEndOrZero_nonneg (ends : List ℚ) : 0 ≤ maxEndOrZero ends := by
  unfold maxEndOrZero
  induction ends with
  | nil => simp
  | cons x xs ih => exact le_trans ih (le_max_right _ _)

theorem le_maxEndOrZero (ends : List ℚ) (x : ℚ) (hx : x ∈ ends) : x ≤ maxEndOrZero ends := by
  unfold maxEndOrZero
  induction ends with
  | nil => cases hx
  | cons y ys ih =>
    rcases List.mem_cons.mp hx with rfl | h
    · exact le_max_left _ _
    · exact le_trans (ih h) (le_max_right _ _)

theorem Seconds_nonneg (d : Int) (h : 0 ≤ d) : 0 ≤ Seconds d := by
  unfold Seconds
  have : (0 : ℚ) ≤ (d : ℚ) := by exact_mod_cast h
  positivity

theorem maxEndOrZero_mem_or_zero (ends : List ℚ) :
    maxEndOrZero ends = 0 ∨ maxEndOrZero ends ∈ ends := by
  unfold maxEndOrZero
  induction ends with
  | nil => left; rfl
  | cons y ys ih =>
    simp only [List.foldr_cons]
    rcases max_choice y (List.foldr max 0 ys) with h | h
    · right; rw [h]; exact List.mem_cons_self _ _
    · rw [h]
      rcases ih with h0 | hm
      · left; exact h0
      · right; exact List.mem_cons_of_mem _ hm

theorem maxEndOrZero_attained (segs : List Segment) (hpos : ∃ s ∈ segs, 0 ≤ s.End) :
    ∃ s ∈ segs, maxEndOrZero (segs.map (fun s => Seconds s.End)) = Seconds s.End := by
  rcases maxEndOrZero_mem_or_zero (segs.map (fun s => Seconds s.End)) with h0 | hm
  · obtain ⟨s, hs, hs0⟩ := hpos
    refine ⟨s, hs, ?_⟩
    have h1 := le_maxEndOrZero _ _ (List.mem_map_of_mem (fun s => Seconds s.End) hs)
    have h2 := Seconds_nonneg _ hs0
    rw [h0] at h1 ⊢
    exact le_antisymm h2 h1
  · obtain ⟨s, hs, hse⟩ := List.mem_map.mp hm
    exact ⟨s, hs, hse.symm⟩

theorem foldl_maxEnd (segs : List Segment) :
    segs.foldl (fun d s => max d (Seconds s.End)) 0 = maxEndOrZero (segs.map (fun s => Seconds s.End)) := by
  have h : ∀ (l : List Segment) (a : ℚ),
      l.foldl (fun d s => max d (Seconds s.End)) a = (l.map (fun s => Seconds s.End)).foldl max a := by
    intro l
    induction l with
    | nil => intro a; rfl
    | cons s l ih => intro a; simp only [List.foldl_cons, List.map_cons, ih]
  rw [h, foldl_max_eq _ 0 0 (le_refl _)]
  exact max_eq_right (maxEndOrZero_nonneg _)

theorem ProcessAudio_of_segments (ws : WhisperService) (data : ByteSlice) (language : GoString)
    (samples : List ℚ) (ctx : Context) (run : Decoding) (segs : List Segment)
    (hconv : convertWAVToFloat32 data = .ok samples)
    (hctx : ws.model.NewContext = .ok ctx)
    (hproc : ctx.Process language samples = .ok run)
    (hres : run.results = segs.map .ok) :
    ProcessAudio ws data language =
      .ok { Success := true
            Transcription := TrimSpace (segs.map (fun s => TrimSpace s.Text ++ [' '])).flatten
            Segments := segs.map toSegmentResponse
            Language := run.DetectedLanguage
            Model := ws.modelName
            Duration := maxEndOrZero (segs.map (fun s => Seconds s.End))
            Error := "" } := by
  unfold ProcessAudio
  simp only [hconv, hctx, hproc, hres, collectSegments_ok, List.nil_append, foldl_maxEnd]

theorem isSpace_space : isSpace ' ' = true := by decide

theorem TrimSpace_append_space (xs : GoString) : TrimSpace (xs ++ [' ']) = TrimSpace xs := by
  unfold TrimSpace
  rw [List.dropWhile_append]
  by_cases h : (List.dropWhile isSpace xs).isEmpty = true
  · have hnil : List.dropWhile isSpace xs = [] := List.isEmpty_iff.mp h
    simp [hnil, isSpace_space]
  · rw [if_neg h, List.reverse_append, List.reverse_singleton, List.singleton_append,
      List.dropWhile_cons_of_pos isSpace_space]

theorem flatten_eq_joinSpace (t : GoString) (rest : List GoString) :
    ((t :: rest).map (fun x => x ++ [' '])).flatten = joinSpace (t :: rest) ++ [' '] := by
  induction rest generalizing t with
  | nil => simp [joinSpace]
  | cons u rest ih =>
    have h := ih u
    simp only [List.map_cons, List.flatten_cons] at h ⊢
    rw [h]
    simp [joinSpace]

theorem TrimSpace_fullText (texts : List GoString) :
    TrimSpace (texts.map (fun x => x ++ [' '])).flatten = TrimSpace (joinSpace texts) := by
  cases texts with
  | nil => rfl
  | cons t rest => rw [flatten_eq_joinSpace, TrimSpace_append_space]

theorem dropWhile_eq_self_of_head (l : GoString)
    (h : ∀ c, l.head? = some c → isSpace c = false) : l.dropWhile isSpace = l := by
  cases l with
  | nil => rfl
  | cons c t =>
    have hc : isSpace c = false := h c rfl
    rw [List.dropWhile_cons_of_neg (by simp [hc])]

theorem TrimSpace_eq_self (l : GoString)
    (hhead : ∀ c, l.head? = some c → isSpace c = false)
    (hlast : ∀ c, l.getLast? = some c → isSpace c = false) : TrimSpace l = l := by
  unfold TrimSpace
  rw [dropWhile_eq_self_of_head l hhead, dropWhile_eq_self_of_head l.reverse]
  · exact List.reverse_reverse l
  · intro c hc
    rw [List.head?_reverse] at hc
    exact hlast c hc

theorem head?_dropWhile_isSpace (l : GoString) (c : Char)
    (h : (l.dropWhile isSpace).head? = some c) : isSpace c = false := by
  have := List.head?_dropWhile_not isSpace l
  rw [h] at this
  exact this

theorem getLast?_dropWhile (l : GoString) (h : l.dropWhile isSpace ≠ []) :
    (l.dropWhile isSpace).getLast? = l.getLast? := by
  induction l with
  | nil => rfl
  | cons c t ih =>
    by_cases hc : isSpace c = true
    · rw [List.dropWhile_cons_of_pos hc] at h ⊢
      rw [ih h]
      cases t with
      | nil => simp at h
      | cons d t => simp [List.getLast?_cons_cons]
    · rw [List.dropWhile_cons_of_neg hc]

theorem TrimSpace_head (t : GoString) (c : Char) (h : (TrimSpace t).head? = some c) :
    isSpace c = false := by
  unfold TrimSpace at h
  rw [List.head?_reverse] at h
  have hne : List.dropWhile isSpace (List.dropWhile isSpace t).reverse ≠ [] := by
    intro hnil
    rw [hnil] at h
    simp at h
  rw [getLast?_dropWhile _ hne, List.getLast?_reverse] at h
  exact head?_dropWhile_isSpace t c h

theorem TrimSpace_last (t : GoString) (c : Char) (h : (TrimSpace t).getLast? = some c) :
    isSpace c = false := by
  unfold TrimSpace at h
  rw [List.getLast?_reverse] at h
  exact head?_dropWhile_isSpace _ c h

theorem joinSpace_head? (t : GoString) (rest : List GoString) (ht : t ≠ []) :
    (joinSpace (t :: rest)).head? = t.head? := by
  cases rest with
  | nil => rfl
  | cons u rest =>
    cases t with
    | nil => exact absurd rfl ht
    | cons c t => simp [joinSpace]

theorem joinSpace_getLast? (texts : List GoString) (last : GoString)
    (hlast : texts.getLast? = some last) (hne : last ≠ []) :
    (joinSpace texts).getLast? = last.getLast? := by
  induction texts with
  | nil => simp at hlast
  | cons t rest ih =>
    cases rest with
    | nil =>
      simp only [List.getLast?_singleton, Option.some.injEq] at hlast
      subst hlast
      rfl
    | cons u rest =>
      rw [List.getLast?_cons_cons] at hlast
      have h := ih hlast
      have hj : joinSpace (u :: rest) ≠ [] := by
        intro hnil
        rw [hnil] at h
        cases hl : last with
        | nil => exact hne hl
        | cons c l =>
          rw [hl, List.getLast?_nil] at h
          have := List.getLast?_eq_none_iff.mp h.symm
          cases this
      show (t ++ ' ' :: joinSpace (u :: rest)).getLast? = last.getLast?
      rw [← h, List.getLast?_append_of_ne_nil _ (by simp)]
      cases hjs : joinSpace (u :: rest) with
      | nil => exact absurd hjs hj
      | cons d ds => rw [List.getLast?_cons_cons]

theorem ProcessAudio_ok_inv (ws : WhisperService) (data : ByteSlice) (language : GoString)
    (r : TranscriptionResponse) (h : ProcessAudio ws data language = .ok r) :
    ∃ (samples : List ℚ) (ctx : Context) (run : Decoding) (segs : List Segment),
      convertWAVToFloat32 data = .ok samples ∧
      ws.model.NewContext = .ok ctx ∧ ctx.Process language samples = .ok run ∧
      run.results = segs.map .ok := by
  unfold ProcessAudio at h
  cases hconv : convertWAVToFloat32 data with
  | panic => simp [hconv] at h
  | err e => simp [hconv] at h
  | ok samples =>
    cases hctx : ws.model.NewContext with
    | error e => simp [hconv, hctx] at h
    | ok ctx =>
      cases hproc : ctx.Process language samples with
      | error e => simp [hconv, hctx, hproc] at h
      | ok run =>
        cases hacc : collectSegments run.results { segments := [], fullText := [], duration := 0 } with
        | error e => simp [hconv, hctx, hproc, hacc] at h
        | ok acc =>
          obtain ⟨segs, hsegs⟩ := collectSegments_ok_all _ _ _ hacc
          exact ⟨samples, ctx, run, segs, rfl, rfl, by first | rfl | exact hproc, hsegs⟩

theorem silence_samples : convertWAVToFloat32 silence = .ok [0, 0] := by decide!

/-! ## The aggregation: claims C6 to C8 -/

/-- C6, counterexample: the engine yields a segment whose text is a single
space and then the segment "hi".  The trimmed texts joined with a single
space are " hi"; the Transcription returned is "hi". -/
theorem ProcessAudio_blank_first_segment :
    (ProcessAudio (stubService [.ok ⟨0, 1000000000, [' ']⟩, .ok ⟨1000000000, 2000000000, ['h', 'i']⟩])
        silence ['a', 'u', 't', 'o']).value?.map (fun r => r.Transcription) = some ['h', 'i'] ∧
    joinSpace ([[' '], ['h', 'i']].map TrimSpace) = [' ', 'h', 'i'] := by
  decide!

/-- C6, amended: for every finite sequence of segments the engine yields
without error, the Transcription field is the single-space join, in
production order, of the individually trimmed segment texts, with leading
and trailing white space removed from the joined string.  It is the join
itself when the sequence is empty or when neither the first nor the last
segment text is blank. -/
theorem ProcessAudio_transcription (ws : WhisperService) (data : ByteSlice) (language : GoString)
    (samples : List ℚ) (ctx : Context) (run : Decoding) (segs : List Segment)
    (hconv : convertWAVToFloat32 data = .ok samples)
    (hctx : ws.model.NewContext = .ok ctx)
    (hproc : ctx.Process language samples = .ok run)
    (hres : run.results = segs.map .ok) :
    ∃ r, ProcessAudio ws data language = .ok r ∧
      r.Transcription = TrimSpace (joinSpace (segs.map (fun s => TrimSpace s.Text))) ∧
      (segs = [] → r.Transcription = joinSpace (segs.map (fun s => TrimSpace s.Text))) ∧
      (∀ first last, segs.head? = some first → segs.getLast? = some last →
        TrimSpace first.Text ≠ [] → TrimSpace last.Text ≠ [] →
        r.Transcription = joinSpace (segs.map (fun s => TrimSpace s.Text))) := by
  have htext : TrimSpace (segs.map (fun s => TrimSpace s.Text ++ [' '])).flatten
      = TrimSpace (joinSpace (segs.map (fun s => TrimSpace s.Text))) := by
    rw [← TrimSpace_fullText, List.map_map]
    rfl
  refine ⟨_, ProcessAudio_of_segments ws data language samples ctx run segs hconv hctx hproc hres,
    htext, ?_, ?_⟩
  · intro hnil
    subst hnil
    rfl
  · intro first last hfirst hlast hf hl
    show TrimSpace (segs.map (fun s => TrimSpace s.Text ++ [' '])).flatten = _
    rw [htext]
    cases segs with
    | nil => simp at hfirst
    | cons s rest =>
      simp only [List.head?_cons, Option.some.injEq] at hfirst
      subst hfirst
      apply TrimSpace_eq_self
      · intro c hc
        rw [List.map_cons, joinSpace_head? _ _ hf] at hc
        exact TrimSpace_head _ c hc
      · intro c hc
        have hlast' : ((s :: rest).map (fun s => TrimSpace s.Text)).getLast? = some (TrimSpace last.Text) := by
          rw [List.getLast?_map, hlast]
          rfl
        rw [joinSpace_getLast? _ _ hlast' hl] at hc
        exact TrimSpace_last _ c hc

/-- The amended C6 at the engine yielding `paddedSegments`. -/
theorem ProcessAudio_transcription_witness :
    ∃ r, ProcessAudio (stubService (paddedSegments.map .ok)) silence ['a', 'u', 't', 'o'] = .ok r ∧
      r.Transcription = TrimSpace (joinSpace (paddedSegments.map (fun s => TrimSpace s.Text))) ∧
      (paddedSegments = [] →
        r.Transcription = joinSpace (paddedSegments.map (fun s => TrimSpace s.Text))) ∧
      (∀ first last, paddedSegments.head? = some first → paddedSegments.getLast? = some last →
        TrimSpace first.Text ≠ [] → TrimSpace last.Text ≠ [] →
        r.Transcription = joinSpace (paddedSegments.map (fun s => TrimSpace s.Text))) :=
  ProcessAudio_transcription (stubService (paddedSegments.map .ok)) silence ['a', 'u', 't', 'o']
    [0, 0] (stubContext (paddedSegments.map .ok)) (stubDecoding (paddedSegments.map .ok))
    paddedSegments silence_samples rfl rfl rfl

/-- C7: for every finite sequence of segments the engine yields without
error (their End times being offsets into the audio, hence not negative),
the Duration field is the maximum End time, in seconds, over the segments:
some segment has that End and none has a larger one; it is 0 when the
sequence is empty.  The Segments field lists the segments in production
order with their Start and End in seconds (and their trimmed text). -/
theorem ProcessAudio_duration_and_segments (ws : WhisperService) (data : ByteSlice)
    (language : GoString) (samples : List ℚ) (ctx : Context) (run : Decoding)
    (segs : List Segment)
    (hconv : convertWAVToFloat32 data = .ok samples)
    (hctx : ws.model.NewContext = .ok ctx)
    (hproc : ctx.Process language samples = .ok run)
    (hres : run.results = segs.map .ok)
    (hnonneg : ∀ s ∈ segs, 0 ≤ s.End) :
    ∃ r, ProcessAudio ws data language = .ok r ∧
      (segs = [] → r.Duration = 0) ∧
      (segs ≠ [] →
        (∃ s ∈ segs, r.Duration = Seconds s.End) ∧ ∀ s ∈ segs, Seconds s.End ≤ r.Duration) ∧
      r.Segments = segs.map toSegmentResponse ∧
      r.Segments.map (fun x => (x.Start, x.End)) = segs.map (fun s => (Seconds s.Start, Seconds s.End)) := by
  refine ⟨_, ProcessAudio_of_segments ws data language samples ctx run segs hconv hctx hproc hres,
    ?_, ?_, rfl, ?_⟩
  · intro hnil
    subst hnil
    rfl
  · intro hne
    have hpos : ∃ s ∈ segs, 0 ≤ s.End := by
      cases segs with
      | nil => exact absurd rfl hne
      | cons s rest => exact ⟨s, List.mem_cons_self _ _, hnonneg s (List.mem_cons_self _ _)⟩
    show (∃ s ∈ segs, maxEndOrZero (segs.map (fun s => Seconds s.End)) = Seconds s.End) ∧
      ∀ s ∈ segs, Seconds s.End ≤ maxEndOrZero (segs.map (fun s => Seconds s.End))
    exact ⟨maxEndOrZero_attained segs hpos, fun s hs => le_maxEndOrZero _ _ (List.mem_map_of_mem _ hs)⟩
  · show (segs.map toSegmentResponse).map (fun x => (x.Start, x.End)) = _
    rw [List.map_map]
    rfl

/-- C7 at the engine yielding `paddedSegments`, which end at 1 s and 2 s. -/
theorem ProcessAudio_duration_and_segments_witness :
    (∀ s ∈ paddedSegments, 0 ≤ s.End) ∧
    ∃ r, ProcessAudio (stubService (paddedSegments.map .ok)) silence ['a', 'u', 't', 'o'] = .ok r ∧
      (paddedSegments = [] → r.Duration = 0) ∧
      (paddedSegments ≠ [] →
        (∃ s ∈ paddedSegments, r.Duration = Seconds s.End) ∧
          ∀ s ∈ paddedSegments, Seconds s.End ≤ r.Duration) ∧
      r.Segments = paddedSegments.map toSegmentResponse ∧
      r.Segments.map (fun x => (x.Start, x.End))
        = paddedSegments.map (fun s => (Seconds s.Start, Seconds s.End)) :=
  ⟨by decide,
   ProcessAudio_duration_and_segments (stubService (paddedSegments.map .ok)) silence
    ['a', 'u', 't', 'o'] [0, 0] (stubContext (paddedSegments.map .ok))
    (stubDecoding (paddedSegments.map .ok)) paddedSegments silence_samples rfl rfl rfl (by decide)⟩

/-- C8: when a `NextSegment` call returns an error other than end of
sequence, after any number of segments read successfully, `ProcessAudio`
returns that error wrapped as "failed to get segment" and no result.  A
result is returned only if conversion, context creation and processing
succeeded and every `NextSegment` result up to end of sequence was a
segment. -/
theorem ProcessAudio_segment_error_discards (ws : WhisperService) (data : ByteSlice)
    (language : GoString) (samples : List ℚ) (ctx : Context) (run : Decoding)
    (pre : List Segment) (e : EngineError) (rest : List (Except EngineError Segment))
    (hconv : convertWAVToFloat32 data = .ok samples)
    (hctx : ws.model.NewContext = .ok ctx)
    (hproc : ctx.Process language samples = .ok run)
    (hres : run.results = pre.map .ok ++ .error e :: rest) :
    ProcessAudio ws data language = .err (.getSegment e) ∧
    (ProcessAudio ws data language).value? = none ∧
    ∀ (ws' : WhisperService) (data' : ByteSlice) (language' : GoString) (r : TranscriptionResponse),
      ProcessAudio ws' data' language' = .ok r →
      ∃ (samples' : List ℚ) (ctx' : Context) (run' : Decoding) (segs : List Segment),
        convertWAVToFloat32 data' = .ok samples' ∧ ws'.model.NewContext = .ok ctx' ∧
        ctx'.Process language' samples' = .ok run' ∧ run'.results = segs.map .ok := by
  have h : ProcessAudio ws data language = .err (.getSegment e) := by
    unfold ProcessAudio
    simp only [hconv, hctx, hproc, hres, collectSegments_error]
  refine ⟨h, ?_, ?_⟩
  · rw [h]; rfl
  · intro ws' data' language' r hr
    exact ProcessAudio_ok_inv ws' data' language' r hr

/-- C8 at the engine yielding `failingResults`: two segments, then an error. -/
theorem ProcessAudio_segment_error_discards_witness :
    ProcessAudio (stubService failingResults)
        silence ['a', 'u', 't', 'o'] = .err (.getSegment ⟨"decode failed"⟩) ∧
    (ProcessAudio (stubService failingResults)
        silence ['a', 'u', 't', 'o']).value? = none ∧
    ∀ (ws' : WhisperService) (data' : ByteSlice) (language' : GoString) (r : TranscriptionResponse),
      ProcessAudio ws' data' language' = .ok r →
      ∃ (samples' : List ℚ) (ctx' : Context) (run' : Decoding) (segs : List Segment),
        convertWAVToFloat32 data' = .ok samples' ∧ ws'.model.NewContext = .ok ctx' ∧
        ctx'.Process language' samples' = .ok run' ∧ run'.results = segs.map .ok :=
  ProcessAudio_segment_error_discards
    (stubService failingResults)
    silence ['a', 'u', 't', 'o'] [0, 0]
    (stubContext failingResults)
    (stubDecoding failingResults)
    paddedSegments ⟨"decode failed"⟩ [.ok ⟨0, 5, ['z']⟩] silence_samples rfl rfl rfl

/-! ## The upload handler: claim C9 -/

/-- The extension ".mp3" is not ".wav" in lower case. -/
theorem mp3_not_valid (filename : GoString) (h : Ext filename = ['.', 'm', 'p', '3']) :
    isValidAudioFile filename = false := by
  unfold isValidAudioFile
  rw [h]
  decide

/-- Reply of the handler to a parsed upload whose file name does not have
the extension ".wav" in lower case. -/
theorem handleTranscribe_of_other_extension (config : Config) (ws : WhisperService)
    (r : Request) (file : FormFile)
    (hparse : r.parseOk = true) (hfile : r.file = some file)
    (hext : ToLower (Ext file.header.Filename) ≠ ['.', 'w', 'a', 'v']) :
    (handleTranscribe config ws r).processAudioCalls = [] ∧
    (handleTranscribe config ws r).reply.status
      = some (if file.header.Size > config.MaxFileSize then 413 else 400) := by
  have hinvalid : isValidAudioFile file.header.Filename = false := by
    unfold isValidAudioFile
    simpa using hext
  unfold handleTranscribe
  simp only [hparse, hfile, hinvalid]
  by_cases hsize : file.header.Size > config.MaxFileSize
  · simp [hsize, Reply.status]
  · simp [hsize, Reply.status]

/-- C9, counterexample: with an upload limit of 3 bytes, a well-formed upload
of the file "a.mp3" of size 4 is answered with status 413, not 400. -/
theorem handleTranscribe_large_mp3_is_413 :
    Ext ['a', '.', 'm', 'p', '3'] = ['.', 'm', 'p', '3'] ∧
    (handleTranscribe (configWithLimit 3) (stubService []) (uploadOf ['a', '.', 'm', 'p', '3'] 4)).reply.status
      = some 413 := by
  decide

/-- C9, amended: for every well-formed multipart upload whose "file" field
has a file name whose extension, in lower case, is not ".wav" (in particular
the extension ".mp3"), whatever the file's bytes, `handleTranscribe` never
calls `ProcessAudio`; it responds with status 400 when the file size is at
most the configured maximum, and with status 413 when it is larger. -/
theorem handleTranscribe_rejects_other_extensions (config : Config) (ws : WhisperService)
    (r : Request) (file : FormFile)
    (hparse : r.parseOk = true) (hfile : r.file = some file)
    (hext : ToLower (Ext file.header.Filename) ≠ ['.', 'w', 'a', 'v']) :
    (handleTranscribe config ws r).processAudioCalls = [] ∧
    (handleTranscribe config ws r).reply.status
      = some (if file.header.Size > config.MaxFileSize then 413 else 400) ∧
    (Ext file.header.Filename = ['.', 'm', 'p', '3'] → file.header.Size ≤ config.MaxFileSize →
      (handleTranscribe config ws r).reply.status = some 400) := by
  obtain ⟨h1, h2⟩ := handleTranscribe_of_other_extension config ws r file hparse hfile hext
  refine ⟨h1, h2, ?_⟩
  intro _ hle
  rw [h2, if_neg (by omega)]

/-- The amended C9 at an upload of "a.mp3" of 48 bytes with the default limit of 26214400 bytes. -/
theorem handleTranscribe_rejects_other_extensions_witness :
    ((handleTranscribe (configWithLimit 26214400) (stubService [])
        (uploadOf ['a', '.', 'm', 'p', '3'] 48)).processAudioCalls = [] ∧
    (handleTranscribe (configWithLimit 26214400) (stubService [])
        (uploadOf ['a', '.', 'm', 'p', '3'] 48)).reply.status
      = some (if (⟨⟨['a', '.', 'm', 'p', '3'], 48⟩, some silence⟩ : FormFile).header.Size
            > (configWithLimit 26214400).MaxFileSize then 413 else 400) ∧
    (Ext (⟨⟨['a', '.', 'm', 'p', '3'], 48⟩, some silence⟩ : FormFile).header.Filename
        = ['.', 'm', 'p', '3'] →
      (⟨⟨['a', '.', 'm', 'p', '3'], 48⟩, some silence⟩ : FormFile).header.Size
        ≤ (configWithLimit 26214400).MaxFileSize →
      (handleTranscribe (configWithLimit 26214400) (stubService [])
        (uploadOf ['a', '.', 'm', 'p', '3'] 48)).reply.status = some 400)) :=
  handleTranscribe_rejects_other_extensions (configWithLimit 26214400) (stubService [])
    (uploadOf ['a', '.', 'm', 'p', '3'] 48) ⟨⟨['a', '.', 'm', 'p', '3'], 48⟩, some silence⟩
    rfl rfl (by decide)

/-- The handler calls `ProcessAudio` only for a file name whose extension, in
lower case, is ".wav". -/
theorem handleTranscribe_calls_only_wav (config : Config) (ws : WhisperService) (r : Request)
    (h : (handleTranscribe config ws r).processAudioCalls ≠ []) :
    ∃ file, r.file = some file ∧ ToLower (Ext file.header.Filename) = ['.', 'w', 'a', 'v'] := by
  cases hf : r.file with
  | none =>
    exfalso
    apply h
    unfold handleTranscribe
    cases hp : r.parseOk <;> simp [hf]
  | some file =>
    refine ⟨file, rfl, ?_⟩
    by_contra hext
    by_cases hp : r.parseOk = true
    · exact h (handleTranscribe_of_other_extension config ws r file hp hf hext).1
    · apply h
      unfold handleTranscribe
      simp [hp]

/-! ## The stop sequence: claim C10 -/

/-- C10, evaluated on the code: `main` appends the HTTP server hook and then
the cleanup hook; stop hooks run in reverse order of registration, so the
stop trace is `model.Close` followed by `httpServer.Shutdown`: the model is
released before the HTTP server has shut down. -/
theorem main_stop_closes_model_before_shutdown :
    mainLifecycle = [⟨some [.httpListenAndServe], some [.httpShutdown]⟩, ⟨none, some [.modelClose]⟩] ∧
    fxStop mainLifecycle = [.modelClose, .httpShutdown] ∧
    (fxStop mainLifecycle).indexOf .modelClose < (fxStop mainLifecycle).indexOf .httpShutdown := by
  decide

end WhisperServer
